import Mathlib

/-!
Verification of the ocutil bulk-transfer core against its specification.

The Python sources are shallowly embedded: Python strings become `List Char`
(called `Str` here), pure path helpers become Lean functions, the retry loops
become structural recursions over an abstract per-attempt outcome, the
paginated listing loop becomes a fuelled recursion over an abstract object
store, and the `cp` command handler becomes a function from an abstract
environment to an exit code, an action trace and a task list.
-/

namespace Ocutil

/-- Python strings are modelled as lists of characters. -/
abbrev Str := List Char

/-- Convert a Lean string literal to the `Str` model. -/
def str (s : String) : Str := s.data

/-- Python `s.endswith(t)`. -/
def strEndsWith (s t : Str) : Bool := t.isSuffixOf s

/-- Python `c in s` for a single character `c`. -/
def strContainsChar (s : Str) (c : Char) : Bool := s.any (· == c)

/-- Python `s.rstrip(c)` for a single strip character. -/
def rstripChar (s : Str) (c : Char) : Str := (s.reverse.dropWhile (· = c)).reverse

/-- Python `s.strip(c)` for a single strip character. -/
def stripChar (s : Str) (c : Char) : Str := (rstripChar s c).dropWhile (· = c)

/-- Python `os.path.basename`: the part of the path after the last slash. -/
def osBasename (p : Str) : Str := (p.reverse.takeWhile (· ≠ '/')).reverse

/-- The extension component of Python `os.path.splitext(p)`: the suffix of the
last path segment starting at its last dot, except that dots leading the
segment do not start an extension (CPython's `genericpath._splitext`). -/
def splitextExt (p : Str) : Str :=
  if ((osBasename p).dropWhile (· = '.')).any (· == '.') then
    '.' :: (p.reverse.takeWhile (· ≠ '.')).reverse
  else []

/-- Embedding of `adjust_remote_object_path` from `ocutil/main.py`: resolves
the remote object name for a single-file upload from the local source path and
the destination key. -/
def adjust_remote_object_path (local_source object_path : Str) : Str :=
  let local_basename := osBasename local_source
  if object_path = [] ∨ strEndsWith object_path (str "/") then
    object_path ++ local_basename
  else if strContainsChar object_path '/' = true ∧
      strEndsWith object_path ('/' :: local_basename) = false then
    if splitextExt object_path = [] then
      rstripChar object_path '/' ++ '/' :: local_basename
    else object_path
  else object_path

/-- A list whose members all satisfy the predicate, followed by one element
that does not, is taken whole (and only it) by `takeWhile`. -/
theorem takeWhile_all_append {α : Type} (p : α → Bool) (l₁ : List α) (c : α)
    (l₂ : List α) (h₁ : ∀ a ∈ l₁, p a = true) (h₂ : p c = false) :
    (l₁ ++ c :: l₂).takeWhile p = l₁ := by
  induction l₁ with
  | nil => simp [List.takeWhile_cons, h₂]
  | cons a t ih =>
    have ha : p a = true := h₁ a (by simp)
    simp only [List.cons_append, List.takeWhile_cons, ha, if_true]
    rw [ih (fun b hb => h₁ b (by simp [hb]))]

/-- A string containing no slash is its own basename. -/
theorem osBasename_of_no_slash (s : Str) (h : strContainsChar s '/' = false) :
    osBasename s = s := by
  unfold osBasename
  rw [List.takeWhile_eq_self_iff.mpr, List.reverse_reverse]
  intro a ha
  have hmem : a ∈ s := by simpa using List.mem_reverse.mp ha
  have : ¬ (a == '/') = true := by
    intro hcontra
    have : strContainsChar s '/' = true := List.any_eq_true.mpr ⟨a, hmem, hcontra⟩
    simp [this] at h
  simpa using this

/-- If a slash-free `name` is a suffix of `d` preceded by a slash, then `name`
is the basename of `d`. -/
theorem osBasename_of_suffix (d name : Str) (hname : strContainsChar name '/' = false)
    (h : strEndsWith d ('/' :: name) = true) : osBasename d = name := by
  have hsuf : ('/' :: name) <:+ d := List.isSuffixOf_iff_suffix.mp h
  obtain ⟨t, ht⟩ := hsuf
  have hd : d.reverse = name.reverse ++ '/' :: t.reverse := by
    rw [← ht]
    simp
  unfold osBasename
  rw [hd, takeWhile_all_append _ _ _ _ ?_ (by simp), List.reverse_reverse]
  intro a ha
  have hmem : a ∈ name := List.mem_reverse.mp ha
  have : ¬ (a == '/') = true := by
    intro hcontra
    have : strContainsChar name '/' = true := List.any_eq_true.mpr ⟨a, hmem, hcontra⟩
    simp [this] at hname
  simpa using this

/-- Conversely, if `d` contains a slash then a slash followed by the basename
of `d` is a suffix of `d`. -/
theorem suffix_of_osBasename (d : Str) (hc : strContainsChar d '/' = true) :
    strEndsWith d ('/' :: osBasename d) = true := by
  apply List.isSuffixOf_iff_suffix.mpr
  have hsplit : d.reverse.takeWhile (· ≠ '/') ++ d.reverse.dropWhile (· ≠ '/') = d.reverse :=
    List.takeWhile_append_dropWhile _ _
  have hslash : '/' ∈ d.reverse := by
    obtain ⟨a, ha, hb⟩ := List.any_eq_true.mp hc
    have : a = '/' := by simpa using hb
    subst this
    exact List.mem_reverse.mpr ha
  have hne : d.reverse.dropWhile (· ≠ '/') ≠ [] := by
    intro hnil
    have : ∀ a ∈ d.reverse, (a ≠ '/' : Bool) = true := by
      have := List.dropWhile_eq_nil_iff.mp hnil
      simpa using this
    have := this '/' hslash
    simp at this
  obtain ⟨c, t, hct⟩ := List.exists_cons_of_ne_nil hne
  have hcfalse : (c ≠ '/' : Bool) = false := by
    have := List.head?_dropWhile_not (fun a => (a ≠ '/' : Bool)) d.reverse
    rw [hct] at this
    simpa using this
  have hc' : c = '/' := by simpa using hcfalse
  subst hc'
  refine ⟨t.reverse, ?_⟩
  conv_rhs => rw [← List.reverse_reverse d, ← hsplit, hct]
  simp [osBasename]

/-- A string not ending in a slash is unchanged by `rstrip` on slashes. -/
theorem rstripChar_of_no_trailing (d : Str) (h : strEndsWith d (str "/") = false) :
    rstripChar d '/' = d := by
  unfold rstripChar
  cases hrev : d.reverse with
  | nil =>
    have hd : d = [] := by
      have := congrArg List.reverse hrev
      simpa using this
    simp [hd]
  | cons a t =>
    have hd : d = (a :: t).reverse := by
      rw [← hrev, List.reverse_reverse]
    have ha : a ≠ '/' := by
      intro hcontra
      subst hcontra
      have hsuf : (str "/") <:+ d := by
        refine ⟨t.reverse, ?_⟩
        rw [hd]
        simp [str]
      have : strEndsWith d (str "/") = true := List.isSuffixOf_iff_suffix.mpr hsuf
      simp [this] at h
    rw [List.dropWhile_cons]
    simp only [decide_eq_true_eq, ha, if_false]
    rw [← hrev, List.reverse_reverse]

/-- C7: destination-name resolution for single-file uploads. For a slash-free
basename `name`: an empty destination key yields `name`; a key ending in a
separator gets `name` appended; an exact-match key is kept; a key containing a
separator whose last segment has no extension and differs from the basename
gets the basename appended; any other non-empty key not ending in a separator
is used verbatim. -/
theorem adjust_remote_object_path_spec (name destKey pfx : Str)
    (hname : strContainsChar name '/' = false) :
    adjust_remote_object_path name [] = name
    ∧ adjust_remote_object_path name (pfx ++ str "/") = pfx ++ str "/" ++ name
    ∧ adjust_remote_object_path (str "f.txt") (str "f.txt") = str "f.txt"
    ∧ (strContainsChar destKey '/' = true → strEndsWith destKey (str "/") = false →
        splitextExt destKey = [] → osBasename destKey ≠ name →
        adjust_remote_object_path name destKey = destKey ++ '/' :: name)
    ∧ (destKey ≠ [] → strEndsWith destKey (str "/") = false →
        (strContainsChar destKey '/' = false ∨ splitextExt destKey ≠ [] ∨
          osBasename destKey = name) →
        adjust_remote_object_path name destKey = destKey) := by
  have hbase : osBasename name = name := osBasename_of_no_slash name hname
  refine ⟨?_, ?_, by decide, ?_, ?_⟩
  · simp [adjust_remote_object_path, hbase]
  · have hend : strEndsWith (pfx ++ str "/") (str "/") = true :=
      List.isSuffixOf_iff_suffix.mpr ⟨pfx, rfl⟩
    simp [adjust_remote_object_path, hbase, hend]
  · intro h1 h2 h3 h4
    have hne : destKey ≠ [] := by
      intro hnil
      subst hnil
      simp [strContainsChar] at h1
    have hnotsuf : strEndsWith destKey ('/' :: name) = false := by
      cases hcase : strEndsWith destKey ('/' :: name) with
      | false => rfl
      | true => exact absurd (osBasename_of_suffix destKey name hname hcase) h4
    simp [adjust_remote_object_path, hbase, h1, h2, h3, hne, hnotsuf,
      rstripChar_of_no_trailing destKey h2]
  · intro h1 h2 h3
    rcases h3 with h3 | h3 | h3
    · simp [adjust_remote_object_path, hbase, h1, h2]
      intro hcontra
      simp [h3] at hcontra
    · by_cases hcase : strEndsWith destKey ('/' :: name) = true
      · simp [adjust_remote_object_path, hbase, h1, h2, hcase]
      · simp only [Bool.not_eq_true] at hcase
        simp [adjust_remote_object_path, hbase, h1, h2, h3, hcase]
    · by_cases hcontains : strContainsChar destKey '/' = true
      · have hcase : strEndsWith destKey ('/' :: name) = true := by
          have := suffix_of_osBasename destKey hcontains
          rwa [h3] at this
        simp [adjust_remote_object_path, hbase, h1, h2, hcase]
      · simp only [Bool.not_eq_true] at hcontains
        simp [adjust_remote_object_path, hbase, h1, h2, hcontains]

/-- Witness for `adjust_remote_object_path_spec` at concrete inputs. -/
theorem adjust_remote_object_path_spec_witness :
    strContainsChar (str "file.bin") '/' = false ∧
    adjust_remote_object_path (str "file.bin") (str "a/b") =
      str "a/b" ++ '/' :: str "file.bin" :=
  ⟨by decide,
   (adjust_remote_object_path_spec (str "file.bin") (str "a/b") (str "p")
      (by decide)).2.2.2.1 (by decide) (by decide) (by decide) (by decide)⟩

/-- Embedding of the folder-upload destination-prefix choice in
`handle_cp_command` (ocutil/main.py, upload branch): the parsed destination
key is used as the upload prefix unchanged; only when it is empty is the
basename of the normalized local source directory substituted. -/
def final_object_pfx (object_path source_dir_basename : Str) : Str :=
  if object_path = [] then source_dir_basename else object_path

/-- Embedding of the object-name construction in `Uploader.upload_folder`
(ocutil/utils/uploader.py): a non-empty prefix is stripped of leading and
trailing slashes and joined to the relative path with a slash; an empty
prefix leaves the relative path alone. -/
def upload_object_name (object_pfx relative_path : Str) : Str :=
  if object_pfx ≠ [] then stripChar object_pfx '/' ++ '/' :: relative_path
  else relative_path

/-- C6 counterexample: for destination key "pfx/" (ending in a separator) and
source directory basename "dir", the code keeps the key as-is instead of
appending the basename: the claimed prefix "pfx/dir" is not produced, and the
object name built for relative file "a.txt" is "pfx/a.txt". -/
theorem upload_pfx_trailing_sep_cex :
    final_object_pfx (str "pfx/") (str "dir") ≠ str "pfx/" ++ str "dir"
    ∧ upload_object_name (final_object_pfx (str "pfx/") (str "dir")) (str "a.txt")
        = str "pfx/a.txt" := by
  refine ⟨by decide, by decide⟩

/-- C6 (amended): when the destination key is empty the source directory
basename becomes the upload prefix; any non-empty destination key — including
one ending in a separator — is used as-is, its surrounding slashes being
stripped only when it is joined with each relative path. -/
theorem final_object_pfx_amended (destKey basename rel : Str) (h : destKey ≠ []) :
    final_object_pfx [] basename = basename
    ∧ final_object_pfx destKey basename = destKey
    ∧ upload_object_name (final_object_pfx destKey basename) rel
        = stripChar destKey '/' ++ '/' :: rel := by
  refine ⟨rfl, ?_, ?_⟩ <;> simp [final_object_pfx, upload_object_name, h]

/-- Witness for `final_object_pfx_amended` at concrete inputs. -/
theorem final_object_pfx_amended_witness :
    str "pfx/" ≠ ([] : Str) ∧ final_object_pfx (str "pfx/") (str "dir") = str "pfx/" :=
  ⟨by decide,
   (final_object_pfx_amended (str "pfx/") (str "dir") (str "a.txt") (by decide)).2.1⟩

/-- The unit names used by `human_readable_size` (ocutil/utils/formatters.py). -/
def size_name : List String :=
  ["B", "KiB", "MiB", "GiB", "TiB", "PiB", "EiB", "ZiB", "YiB"]

/-- Round the nonnegative rational `a / b` to the nearest integer, ties to
even, as Python `round` does (`b` is assumed positive). -/
def pyRound (a b : Nat) : Nat :=
  let q := a / b
  let r := a % b
  if 2 * r < b then q
  else if b < 2 * r then q + 1
  else if q % 2 = 0 then q else q + 1

/-- The unit index computed by `human_readable_size`: the integer base-1024
logarithm of the magnitude, clamped to the last unit of `size_name`. -/
def unit_index (num_bytes : Nat) : Nat :=
  if size_name.length ≤ Nat.log 1024 num_bytes then size_name.length - 1
  else Nat.log 1024 num_bytes

/-- Embedding of `human_readable_size` from ocutil/utils/formatters.py.
A `none` result models a raised exception: in `round(num_bytes / p, 1)` the
divisor `p = math.pow(1024, i)` is already a float, so CPython first converts
the integer `num_bytes` itself to a float and raises `OverflowError` whenever
that conversion overflows the IEEE-754 double range — that is, whenever
`num_bytes` rounds to `2 ^ 1024` or beyond, the smallest such integer being
`2 ^ 1024 - 2 ^ 970` (the midpoint above the largest finite double, which
ties-to-even rounds up). Aside from that boundary the float arithmetic is
modelled exactly, with the one-decimal rounding carried out on the value
scaled to tenths. -/
def human_readable_size (size_bytes : Option Int) : Option String :=
  match size_bytes with
  | none => some "N/A"
  | some sb =>
    if sb = 0 then some "0 B"
    else
      let num_bytes : Nat := sb.natAbs
      let i : Nat := unit_index num_bytes
      let p : Nat := 1024 ^ i
      if 2 ^ 1024 - 2 ^ 970 ≤ num_bytes then none
      else
        let tenths : Nat := pyRound (10 * num_bytes) p
        let s : String :=
          if i = 0 ∨ tenths % 10 = 0 then toString (tenths / 10)
          else toString (tenths / 10) ++ "." ++ toString (tenths % 10)
        some (s ++ " " ++ size_name.getD i "B")

/-- C10 counterexample: the formatter is not total over arbitrarily large
integers — already at `2 ^ 1024 - 1` bytes the float conversion of
`num_bytes` inside `round(num_bytes / p, 1)` overflows the IEEE-754 double
range and CPython raises `OverflowError` (modelled as `none`), so no string
is returned. -/
theorem human_readable_size_overflow_cex :
    human_readable_size (some ((2 ^ 1024 - 1 : Nat) : Int)) = none := by
  have htwo : (2:Nat) ≤ 2 ^ 1024 := by
    calc (2:Nat) = 2 ^ 1 := by norm_num
    _ ≤ 2 ^ 1024 := Nat.pow_le_pow_right (by norm_num) (by norm_num)
  have hnz' : (2 ^ 1024 - 1 : Nat) ≠ 0 := by omega
  have hnz : ¬ (((2 ^ 1024 - 1 : Nat) : Int) = 0) := fun hc =>
    hnz' (Int.natCast_eq_zero.mp hc)
  have hnat : (((2 ^ 1024 - 1 : Nat) : Int)).natAbs = 2 ^ 1024 - 1 :=
    Int.natAbs_ofNat _
  have hguard : (2:Nat) ^ 1024 - 2 ^ 970 ≤ 2 ^ 1024 - 1 := by
    have h1 : (1:Nat) ≤ 2 ^ 970 := Nat.one_le_pow _ _ (by norm_num)
    omega
  simp only [human_readable_size, hnz, if_false, hnat]
  rw [if_pos hguard]

/-- C10 (amended): the formatter is total below the float-overflow boundary:
`None` yields "N/A", `0` yields "0 B", negative values format exactly as
their absolute value, the unit index is clamped below the unit-list length
for every magnitude, and every integer of magnitude under
`2 ^ 1024 - 2 ^ 970` (the least integer that rounds beyond the largest
finite double) yields a string; at that magnitude and above, converting
`num_bytes` to a float for the division makes CPython raise `OverflowError`
instead of returning. -/
theorem human_readable_size_amended (n : Int)
    (hn : n.natAbs < 2 ^ 1024 - 2 ^ 970) :
    human_readable_size none = some "N/A"
    ∧ human_readable_size (some 0) = some "0 B"
    ∧ (∀ m : Int, human_readable_size (some m) = human_readable_size (some (-m)))
    ∧ unit_index n.natAbs < size_name.length
    ∧ (human_readable_size (some n)).isSome = true := by
  refine ⟨rfl, rfl, ?_, ?_, ?_⟩
  · intro m
    by_cases hm : m = 0
    · simp [hm]
    · have hm' : ¬ (-m = 0) := by simpa using hm
      simp [human_readable_size, hm, hm', Int.natAbs_neg]
  · unfold unit_index
    split
    · simp [size_name]
    · rename_i hc
      simp only [size_name, List.length_cons, List.length_nil] at hc ⊢
      omega
  · by_cases h0 : n = 0
    · simp [h0, human_readable_size]
    · have hguard : ¬ ((2:Nat) ^ 1024 - 2 ^ 970 ≤ n.natAbs) := Nat.not_le.mpr hn
      simp [human_readable_size, h0, hguard]

/-- Witness for `human_readable_size_amended` at a concrete input. -/
theorem human_readable_size_amended_witness :
    (5:Int).natAbs < 2 ^ 1024 - 2 ^ 970
    ∧ (human_readable_size (some 5)).isSome = true :=
  ⟨by
    have h1 : (2:Nat) ^ 970 + 5 < 2 ^ 1024 := by
      have h2 : (2:Nat) ^ 970 + 5 ≤ 2 ^ 970 + 2 ^ 970 := by
        have : (5:Nat) ≤ 2 ^ 970 := Nat.le_of_lt (by
          calc (5:Nat) < 2 ^ 3 := by norm_num
          _ ≤ 2 ^ 970 := Nat.pow_le_pow_right (by norm_num) (by norm_num))
        omega
      have h3 : (2:Nat) ^ 970 + 2 ^ 970 = 2 ^ 971 := by ring
      have h4 : (2:Nat) ^ 971 < 2 ^ 1024 :=
        Nat.pow_lt_pow_right (by norm_num) (by norm_num)
      omega
    show (5:Nat) < 2 ^ 1024 - 2 ^ 970
    omega,
   (human_readable_size_amended 5 (by
      have h1 : (2:Nat) ^ 970 + 5 < 2 ^ 1024 := by
        have h2 : (2:Nat) ^ 970 + 5 ≤ 2 ^ 970 + 2 ^ 970 := by
          have : (5:Nat) ≤ 2 ^ 970 := Nat.le_of_lt (by
            calc (5:Nat) < 2 ^ 3 := by norm_num
            _ ≤ 2 ^ 970 := Nat.pow_le_pow_right (by norm_num) (by norm_num))
          omega
        have h3 : (2:Nat) ^ 970 + 2 ^ 970 = 2 ^ 971 := by ring
        have h4 : (2:Nat) ^ 971 < 2 ^ 1024 :=
          Nat.pow_lt_pow_right (by norm_num) (by norm_num)
        omega
      show (5:Nat) < 2 ^ 1024 - 2 ^ 970
      omega)).2.2.2.2⟩

/-- Outcome of one attempt of `Downloader.download_single_file`: the attempt
either completes the stream copy (reporting the head-reported total size and
the bytes actually written), fails with a 404 service error, or fails with a
retriable service error or other exception. -/
inductive DlAttempt
  | ok (total bytes : Nat)
  | notFound
  | err
deriving DecidableEq

/-- What one run of `download_single_file` produces: the returned Boolean,
the number of attempts made, and whether the size-mismatch warning fired. -/
structure DlResult where
  success : Bool
  attempts : Nat
  warned : Bool
deriving DecidableEq

/-- Embedding of the retry loop of `Downloader.download_single_file`
(ocutil/utils/downloader.py): `i` is the 0-based attempt index, `r` the
retries still allowed (`max_retries - 1 - i`). A 404 returns failure at
once; other errors retry while retries remain; a completed copy logs a
warning exactly when the expected size is positive and differs from the
bytes written, and returns success regardless. -/
def download_single_file_go (att : Nat → DlAttempt) : Nat → Nat → DlResult
  | i, 0 =>
    match att i with
    | .ok total bytes => ⟨true, i + 1, decide (0 < total ∧ bytes ≠ total)⟩
    | .notFound => ⟨false, i + 1, false⟩
    | .err => ⟨false, i + 1, false⟩
  | i, r + 1 =>
    match att i with
    | .ok total bytes => ⟨true, i + 1, decide (0 < total ∧ bytes ≠ total)⟩
    | .notFound => ⟨false, i + 1, false⟩
    | .err => download_single_file_go att (i + 1) r

/-- `download_single_file` runs at most `max_retries = 3` attempts. -/
def download_single_file (att : Nat → DlAttempt) : DlResult :=
  download_single_file_go att 0 2

/-- Outcome of one attempt of `Uploader._upload_worker`: success, a
non-retriable status (401/403/404), a 429 rate limit, or any other
retriable error. -/
inductive UpAttempt
  | ok
  | terminal
  | rate
  | err
deriving DecidableEq

/-- Embedding of the retry loop of `Uploader._upload_worker`
(ocutil/utils/uploader.py): terminal statuses fail at once; rate limits and
other errors retry (with different backoff) while retries remain. Returns
the success Boolean and the number of attempts made. -/
def upload_worker_go (att : Nat → UpAttempt) : Nat → Nat → Bool × Nat
  | i, 0 =>
    match att i with
    | .ok => (true, i + 1)
    | .terminal => (false, i + 1)
    | .rate => (false, i + 1)
    | .err => (false, i + 1)
  | i, r + 1 =>
    match att i with
    | .ok => (true, i + 1)
    | .terminal => (false, i + 1)
    | .rate => upload_worker_go att (i + 1) r
    | .err => upload_worker_go att (i + 1) r

/-- `_upload_worker` runs at most `max_retries = 3` attempts. -/
def upload_worker (att : Nat → UpAttempt) : Bool × Nat :=
  upload_worker_go att 0 2

/-- C4: for both transfer workers, a terminal (not-found) error yields
exactly 1 attempt and a failed outcome returned as data; a retriable error
on every attempt yields exactly 3 total attempts and a failed outcome; a
retriable error followed by success yields a successful outcome after
exactly 2 attempts. -/
theorem retry_attempt_counts (att : Nat → DlAttempt) (uatt : Nat → UpAttempt)
    (total bytes : Nat) :
    (att 0 = DlAttempt.notFound → download_single_file att = ⟨false, 1, false⟩)
    ∧ ((∀ i, att i = DlAttempt.err) → download_single_file att = ⟨false, 3, false⟩)
    ∧ (att 0 = DlAttempt.err → att 1 = DlAttempt.ok total bytes →
        (download_single_file att).success = true
        ∧ (download_single_file att).attempts = 2)
    ∧ (uatt 0 = UpAttempt.terminal → upload_worker uatt = (false, 1))
    ∧ ((∀ i, uatt i = UpAttempt.err) → upload_worker uatt = (false, 3))
    ∧ (uatt 0 = UpAttempt.err → uatt 1 = UpAttempt.ok →
        upload_worker uatt = (true, 2)) := by
  refine ⟨?_, ?_, ?_, ?_, ?_, ?_⟩
  · intro h0
    simp [download_single_file, download_single_file_go, h0]
  · intro h
    simp [download_single_file, download_single_file_go, h 0, h 1, h 2]
  · intro h0 h1
    simp [download_single_file, download_single_file_go, h0, h1]
  · intro h0
    simp [upload_worker, upload_worker_go, h0]
  · intro h
    simp [upload_worker, upload_worker_go, h 0, h 1, h 2]
  · intro h0 h1
    simp [upload_worker, upload_worker_go, h0, h1]

/-- Witness for `retry_attempt_counts` at concrete attempt traces. -/
theorem retry_attempt_counts_witness :
    download_single_file (fun _ => DlAttempt.notFound) = ⟨false, 1, false⟩
    ∧ download_single_file (fun _ => DlAttempt.err) = ⟨false, 3, false⟩
    ∧ upload_worker (fun i => if i = 0 then UpAttempt.err else UpAttempt.ok)
        = (true, 2) :=
  ⟨(retry_attempt_counts (fun _ => DlAttempt.notFound) (fun _ => UpAttempt.ok) 0 0).1 rfl,
   (retry_attempt_counts (fun _ => DlAttempt.err) (fun _ => UpAttempt.ok) 0 0).2.1
     (fun _ => rfl),
   (retry_attempt_counts (fun _ => DlAttempt.err)
       (fun i => if i = 0 then UpAttempt.err else UpAttempt.ok) 0 0).2.2.2.2.2
     (by decide) (by decide)⟩

/-- C8: every single-file download whose stream copy completes (after at most
two earlier retriable failures) is reported as success; the size-mismatch
warning fires exactly when the remote-reported size is nonzero and differs
from the bytes written, and never for a zero-length object. -/
theorem download_size_check_lenient (att : Nat → DlAttempt) (n total bytes : Nat)
    (hok : att n = DlAttempt.ok total bytes)
    (hprev : ∀ i, i < n → att i = DlAttempt.err) (hn : n < 3) :
    (download_single_file att).success = true
    ∧ ((download_single_file att).warned = true ↔ (0 < total ∧ bytes ≠ total))
    ∧ (total = 0 → (download_single_file att).warned = false) := by
  have hres : download_single_file att
      = ⟨true, n + 1, decide (0 < total ∧ bytes ≠ total)⟩ := by
    interval_cases n
    · simp [download_single_file, download_single_file_go, hok]
    · simp [download_single_file, download_single_file_go, hok,
        hprev 0 (by omega)]
    · simp [download_single_file, download_single_file_go, hok,
        hprev 0 (by omega), hprev 1 (by omega)]
  rw [hres]
  refine ⟨rfl, by simp, ?_⟩
  intro h
  simp [h]

/-- Witness for `download_size_check_lenient`: a zero-length object download
succeeds with no warning. -/
theorem download_size_check_lenient_witness :
    (fun _ => DlAttempt.ok 0 0) 0 = DlAttempt.ok 0 0
    ∧ (download_single_file (fun _ => DlAttempt.ok 0 0)).success = true
    ∧ (download_single_file (fun _ => DlAttempt.ok 0 0)).warned = false :=
  ⟨rfl,
   (download_size_check_lenient (fun _ => DlAttempt.ok 0 0) 0 0 0 rfl
      (fun i h => absurd h (Nat.not_lt_zero i)) (by omega)).1,
   (download_size_check_lenient (fun _ => DlAttempt.ok 0 0) 0 0 0 rfl
      (fun i h => absurd h (Nat.not_lt_zero i)) (by omega)).2.2 rfl⟩

/-- Result of one bulk-download worker as seen by the collector loop of
`Downloader._execute_parallel_download`: the worker returned success, the
worker returned failure with a message, or the future itself raised. -/
inductive WorkerResult
  | ok
  | fail (msg : Str)
  | exn (msg : Str)
deriving DecidableEq

/-- The download run summary logged by `_execute_parallel_download`. -/
structure RunSummary where
  attempted : Nat
  succeeded : Nat
  failedList : List (Str × Str)
deriving DecidableEq

/-- One step of the collector loop of `_execute_parallel_download`: a success
bumps the success count, anything else appends to the failed list. -/
def collect_download (s : RunSummary) (r : Str × WorkerResult) : RunSummary :=
  match r.2 with
  | WorkerResult.ok => { s with succeeded := s.succeeded + 1 }
  | WorkerResult.fail m => { s with failedList := s.failedList ++ [(r.1, m)] }
  | WorkerResult.exn m => { s with failedList := s.failedList ++ [(r.1, m)] }

/-- Embedding of the aggregation of `Downloader._execute_parallel_download`
(ocutil/utils/downloader.py): the attempted count is the task count fixed up
front; completed futures are folded into the summary one at a time. -/
def execute_parallel_download (results : List (Str × WorkerResult)) : RunSummary :=
  results.foldl collect_download ⟨results.length, 0, []⟩

/-- Result of one bulk-upload worker as seen by the collector loop of
`Uploader._execute_parallel_upload`. -/
inductive UpWorkerResult
  | ok (bytes : Nat)
  | fail (msg : Str)
  | exn (msg : Str)
deriving DecidableEq

/-- The upload run summary logged by `_execute_parallel_upload`. -/
structure UploadSummary where
  attempted : Nat
  succeeded : Nat
  succeededBytes : Nat
  failedList : List (Str × Str × Str)
deriving DecidableEq

/-- One step of the collector loop of `_execute_parallel_upload`. -/
def collect_upload (s : UploadSummary) (r : (Str × Str) × UpWorkerResult) :
    UploadSummary :=
  match r.2 with
  | UpWorkerResult.ok b =>
    { s with succeeded := s.succeeded + 1, succeededBytes := s.succeededBytes + b }
  | UpWorkerResult.fail m => { s with failedList := s.failedList ++ [(r.1.1, r.1.2, m)] }
  | UpWorkerResult.exn m => { s with failedList := s.failedList ++ [(r.1.1, r.1.2, m)] }

/-- Embedding of the aggregation of `Uploader._execute_parallel_upload`
(ocutil/utils/uploader.py). -/
def execute_parallel_upload (results : List ((Str × Str) × UpWorkerResult)) :
    UploadSummary :=
  results.foldl collect_upload ⟨results.length, 0, 0, []⟩

/-- Folding download results adds exactly one success or failure per result
and leaves the attempted count alone. -/
theorem collect_download_foldl (l : List (Str × WorkerResult)) :
    ∀ s : RunSummary,
      (l.foldl collect_download s).succeeded
          + (l.foldl collect_download s).failedList.length
        = s.succeeded + s.failedList.length + l.length
      ∧ (l.foldl collect_download s).attempted = s.attempted := by
  induction l with
  | nil => intro s; simp
  | cons a t ih =>
    intro s
    have hstep : (collect_download s a).succeeded
          + (collect_download s a).failedList.length
        = s.succeeded + s.failedList.length + 1
        ∧ (collect_download s a).attempted = s.attempted := by
      cases h : a.2 <;> simp [collect_download, h] <;> omega
    have := ih (collect_download s a)
    constructor
    · rw [List.foldl_cons, this.1, hstep.1]
      simp [List.length_cons]
      omega
    · rw [List.foldl_cons, this.2, hstep.2]

/-- Folding upload results adds exactly one success or failure per result
and leaves the attempted count alone. -/
theorem collect_upload_foldl (l : List ((Str × Str) × UpWorkerResult)) :
    ∀ s : UploadSummary,
      (l.foldl collect_upload s).succeeded
          + (l.foldl collect_upload s).failedList.length
        = s.succeeded + s.failedList.length + l.length
      ∧ (l.foldl collect_upload s).attempted = s.attempted := by
  induction l with
  | nil => intro s; simp
  | cons a t ih =>
    intro s
    have hstep : (collect_upload s a).succeeded
          + (collect_upload s a).failedList.length
        = s.succeeded + s.failedList.length + 1
        ∧ (collect_upload s a).attempted = s.attempted := by
      cases h : a.2 <;> simp [collect_upload, h] <;> omega
    have := ih (collect_upload s a)
    constructor
    · rw [List.foldl_cons, this.1, hstep.1]
      simp [List.length_cons]
      omega
    · rw [List.foldl_cons, this.2, hstep.2]

/-- C9: after the pool drains, both run summaries are exactly additive: every
submitted task lands exactly once in the success count or in the failed
list, for any mix of per-task outcomes and any completion order. -/
theorem run_summary_additive (dls : List (Str × WorkerResult))
    (uls : List ((Str × Str) × UpWorkerResult)) :
    (execute_parallel_download dls).attempted
        = (execute_parallel_download dls).succeeded
          + (execute_parallel_download dls).failedList.length
    ∧ (execute_parallel_upload uls).attempted
        = (execute_parallel_upload uls).succeeded
          + (execute_parallel_upload uls).failedList.length := by
  constructor
  · have h := collect_download_foldl dls ⟨dls.length, 0, []⟩
    have h1 := h.1
    have h2 := h.2
    simp only [execute_parallel_download]
    simp at h1 h2
    omega
  · have h := collect_upload_foldl uls ⟨uls.length, 0, 0, []⟩
    have h1 := h.1
    have h2 := h.2
    simp only [execute_parallel_upload]
    simp at h1 h2
    omega

/-- The `start_after` condition of the OCI listing call: with no cursor every
name qualifies, with a cursor only names lexicographically after it do. -/
def saLt : Option Str → Str → Bool
  | none, _ => true
  | some s, n => decide (s < n)

/-- Model of the `list_objects` capability consumed by the downloader:
`names` is the bucket content in the lexicographic order the service lists
it in; one call returns up to `limit` names carrying the prefix and lying
strictly after the `start_after` cursor. -/
def list_objects (names : List Str) (pfx : Str) (sa : Option Str) (limit : Nat) :
    List Str :=
  (names.filter (fun n => saLt sa n && pfx.isPrefixOf n)).take limit

/-- The listing prefix computed at the top of `Downloader.download_folder`:
the object path, normalized to carry a single trailing slash. -/
def folder_pfx (object_path : Str) : Str :=
  if strEndsWith object_path (str "/") then object_path
  else rstripChar object_path '/' ++ str "/"

/-- Embedding of the pagination loop of `Downloader.download_folder`
(ocutil/utils/downloader.py): each page is requested with the cursor set to
the last name the previous page returned; the page is filtered against the
stripped object path (the potential folder marker); the loop stops on an
empty filtered page or on a page shorter than the limit. `fuel` bounds the
number of pages; `names.length + 1` always suffices because every page that
continues the loop is full and advances the cursor past `limit ≥ 1` names. -/
def download_folder_go (names : List Str) (object_path : Str) (limit : Nat) :
    Nat → Option Str → List Str → List Str
  | 0, _, acc => acc
  | fuel + 1, sa, acc =>
    let objects := list_objects names (folder_pfx object_path) sa limit
    let current := objects.filter (fun n => decide (n ≠ rstripChar object_path '/'))
    if current = [] then acc
    else
      let acc' := acc ++ current
      if objects.length < limit then acc'
      else download_folder_go names object_path limit fuel
        (some (objects.getLastD [])) acc'

/-- The full list of object names `download_folder` enumerates before
dispatching workers. -/
def download_folder_names (names : List Str) (object_path : Str) (limit : Nat) :
    List Str :=
  download_folder_go names object_path limit (names.length + 1) none []

/-- Stripping trailing slashes from a string that ends in one shortens it. -/
theorem rstripChar_length_lt (d : Str) (h : strEndsWith d (str "/") = true) :
    (rstripChar d '/').length < d.length := by
  obtain ⟨t, ht⟩ := List.isSuffixOf_iff_suffix.mp h
  have hrev : d.reverse = '/' :: t.reverse := by
    rw [← ht]
    simp [str]
  have hlen : d.length = t.length + 1 := by
    have := congrArg List.length hrev
    simp at this
    omega
  have hsub : (List.dropWhile (fun x => decide (x = '/')) t.reverse).Sublist
      t.reverse := List.dropWhile_sublist _
  have h1 : (List.dropWhile (fun x => decide (x = '/')) t.reverse).length
      ≤ t.length := by
    have := hsub.length_le
    simpa using this
  unfold rstripChar
  rw [hrev]
  have hstep : List.dropWhile (fun x => decide (x = '/')) ('/' :: t.reverse)
      = List.dropWhile (fun x => decide (x = '/')) t.reverse := by
    simp [List.dropWhile_cons]
  rw [hstep]
  simp only [List.length_reverse]
  omega

/-- The listing prefix is strictly longer than the stripped object path, so
no listed name carrying the prefix can equal the folder marker. -/
theorem folder_pfx_length (object_path : Str) :
    (rstripChar object_path '/').length < (folder_pfx object_path).length := by
  unfold folder_pfx
  by_cases h : strEndsWith object_path (str "/") = true
  · rw [if_pos h]
    exact rstripChar_length_lt object_path h
  · rw [if_neg h]
    have h1 : (str "/").length = 1 := rfl
    rw [List.length_append, h1]
    omega

/-- Any name carrying the listing prefix differs from the folder marker. -/
theorem prefixed_ne_marker (object_path n : Str)
    (h : (folder_pfx object_path).isPrefixOf n = true) :
    n ≠ rstripChar object_path '/' := by
  intro hcontra
  have hpre : folder_pfx object_path <+: n := List.isPrefixOf_iff_prefix.mp h
  have hlen : (folder_pfx object_path).length ≤ n.length := hpre.length_le
  have := folder_pfx_length object_path
  rw [hcontra] at hlen
  omega

/-- In a strictly sorted list, filtering for names after the element `m`
keeps exactly the part after `m`. -/
theorem filter_gt_of_sorted (l₁ l₂ : List Str) (m : Str)
    (hs : List.Sorted (· < ·) (l₁ ++ m :: l₂)) :
    (l₁ ++ m :: l₂).filter (fun n => decide (m < n)) = l₂ := by
  have hparts := List.pairwise_append.mp hs
  rw [List.filter_append]
  have h1 : l₁.filter (fun n => decide (m < n)) = [] := by
    rw [List.filter_eq_nil_iff]
    intro a ha
    have : a < m := hparts.2.2 a ha m (by simp)
    simp [lt_asymm this]
  have h2 : (m :: l₂).filter (fun n => decide (m < n)) = l₂ := by
    have hml : ∀ b ∈ l₂, m < b := (List.sorted_cons.mp hparts.2.1).1
    rw [List.filter_cons]
    rw [if_neg (by simp)]
    exact List.filter_eq_self.mpr (fun b hb => by simp [hml b hb])
  rw [h1, h2, List.nil_append]

/-- The one-page listing restricted to the names under the prefix. -/
theorem list_objects_eq (names : List Str) (pfx : Str) (sa : Option Str)
    (limit : Nat) :
    list_objects names pfx sa limit
      = ((names.filter (fun n => pfx.isPrefixOf n)).filter (saLt sa)).take limit := by
  unfold list_objects
  rw [List.filter_filter]

/-- The marker filter inside the pagination loop never removes anything: every
listed name carries the listing prefix and so differs from the stripped
object path. -/
theorem current_eq_objects (names : List Str) (object_path : Str)
    (sa : Option Str) (limit : Nat) :
    (list_objects names (folder_pfx object_path) sa limit).filter
        (fun n => decide (n ≠ rstripChar object_path '/'))
      = list_objects names (folder_pfx object_path) sa limit := by
  apply List.filter_eq_self.mpr
  intro n hn
  have hmem : n ∈ names.filter
      (fun n => saLt sa n && (folder_pfx object_path).isPrefixOf n) := by
    unfold list_objects at hn
    exact List.take_subset _ _ hn
  have hpre : (folder_pfx object_path).isPrefixOf n = true := by
    have := (List.mem_filter.mp hmem).2
    simp only [Bool.and_eq_true] at this
    exact this.2
  simp [prefixed_ne_marker object_path n hpre]

/-- Invariant of the pagination loop: if the names already collected are
exactly an initial segment of the sorted list of names under the prefix and
the cursor admits exactly the remaining segment, then — given enough fuel —
the loop collects the whole list. -/
theorem download_folder_go_complete (names : List Str) (object_path : Str)
    (limit : Nat) (hlim : 0 < limit)
    (hsort : List.Sorted (· < ·)
      (names.filter (fun n => (folder_pfx object_path).isPrefixOf n))) :
    ∀ (fuel : Nat) (done rest : List Str) (sa : Option Str),
      names.filter (fun n => (folder_pfx object_path).isPrefixOf n) = done ++ rest →
      (names.filter (fun n => (folder_pfx object_path).isPrefixOf n)).filter (saLt sa)
        = rest →
      rest.length < fuel →
      download_folder_go names object_path limit fuel sa done
        = names.filter (fun n => (folder_pfx object_path).isPrefixOf n) := by
  intro fuel
  induction fuel with
  | zero =>
    intro done rest sa h1 h2 h3
    omega
  | succ fuel ih =>
    intro done rest sa h1 h2 h3
    have hobj : list_objects names (folder_pfx object_path) sa limit
        = rest.take limit := by
      rw [list_objects_eq, h2]
    have hcur : (list_objects names (folder_pfx object_path) sa limit).filter
          (fun n => decide (n ≠ rstripChar object_path '/'))
        = rest.take limit := by
      rw [current_eq_objects, hobj]
    simp only [download_folder_go]
    rw [hcur, hobj]
    cases rest with
    | nil =>
      rw [if_pos (by simp)]
      simpa using h1.symm
    | cons y ys =>
      obtain ⟨k, rfl⟩ : ∃ k, limit = k + 1 := ⟨limit - 1, by omega⟩
      rw [if_neg (by simp [List.take_cons])]
      by_cases hlt : ((y :: ys).take (k + 1)).length < k + 1
      · rw [if_pos hlt]
        have hlen : (y :: ys).length ≤ k + 1 := by
          rw [List.length_take] at hlt
          omega
        rw [List.take_of_length_le hlen, ← h1]
      · rw [if_neg hlt]
        have hfull : ((y :: ys).take (k + 1)).length = k + 1 := by
          rw [List.length_take] at hlt ⊢
          omega
        have hne : (y :: ys).take (k + 1) ≠ [] := by
          intro hc
          rw [hc] at hfull
          simp at hfull
        obtain ⟨o, m, hom⟩ : ∃ o m, (y :: ys).take (k + 1) = o ++ [m] := by
          rcases List.eq_nil_or_concat' ((y :: ys).take (k + 1)) with hc | hc
          · exact absurd hc hne
          · exact hc
        have hlast : ((y :: ys).take (k + 1)).getLastD [] = m := by
          rw [hom]
          exact List.getLastD_concat _ _ _
        have hrest : (y :: ys).take (k + 1) ++ (y :: ys).drop (k + 1) = y :: ys :=
          List.take_append_drop _ _
        have h1' : names.filter (fun n => (folder_pfx object_path).isPrefixOf n)
            = (done ++ (y :: ys).take (k + 1)) ++ (y :: ys).drop (k + 1) := by
          rw [h1, ← hrest]
          simp
        have hdecomp : names.filter (fun n => (folder_pfx object_path).isPrefixOf n)
            = (done ++ o) ++ m :: (y :: ys).drop (k + 1) := by
          rw [h1', hom]
          simp
        have h2' : (names.filter
              (fun n => (folder_pfx object_path).isPrefixOf n)).filter
              (saLt (some m))
            = (y :: ys).drop (k + 1) := by
          have hcongr : (names.filter
                (fun n => (folder_pfx object_path).isPrefixOf n)).filter
                (saLt (some m))
              = (names.filter
                (fun n => (folder_pfx object_path).isPrefixOf n)).filter
                (fun n => decide (m < n)) :=
            List.filter_congr (fun a _ => rfl)
          rw [hcongr, hdecomp]
          apply filter_gt_of_sorted
          rw [← hdecomp]
          exact hsort
        have h3' : ((y :: ys).drop (k + 1)).length < fuel := by
          have hl : k + 1 ≤ (y :: ys).length := by
            rw [List.length_take] at hlt
            omega
          simp only [List.length_drop, List.length_cons] at h3 hl ⊢
          omega
        rw [hlast]
        exact ih (done ++ (y :: ys).take (k + 1)) ((y :: ys).drop (k + 1))
          (some m) h1' h2' h3'

/-- C3: pagination completeness. For a sorted bucket listing and any positive
page limit, the enumeration loop of `download_folder` — repeated list calls
chained through the last returned name, stopping at a short page — collects
exactly the names under the listing prefix, with no duplicates and no
omissions, regardless of the limit. -/
theorem pagination_complete (names : List Str) (object_path : Str) (limit : Nat)
    (hsort : List.Sorted (· < ·) names) (hlim : 0 < limit) :
    download_folder_names names object_path limit
        = names.filter (fun n => (folder_pfx object_path).isPrefixOf n)
    ∧ (download_folder_names names object_path limit).Nodup := by
  have hrel : List.Sorted (· < ·)
      (names.filter (fun n => (folder_pfx object_path).isPrefixOf n)) :=
    hsort.filter _
  have hmain : download_folder_names names object_path limit
      = names.filter (fun n => (folder_pfx object_path).isPrefixOf n) := by
    unfold download_folder_names
    apply download_folder_go_complete names object_path limit hlim hrel
      (names.length + 1) []
      (names.filter (fun n => (folder_pfx object_path).isPrefixOf n)) none
    · simp
    · have hcongr : (names.filter
            (fun n => (folder_pfx object_path).isPrefixOf n)).filter (saLt none)
          = (names.filter
            (fun n => (folder_pfx object_path).isPrefixOf n)).filter
            (fun _ => true) :=
        List.filter_congr (fun a _ => rfl)
      rw [hcongr]
      exact List.filter_true _
    · exact Nat.lt_succ_of_le (List.length_filter_le _ _)
  refine ⟨hmain, ?_⟩
  rw [hmain]
  exact hsort.nodup.filter _

/-- Witness for `pagination_complete`: three objects under the prefix are all
collected with a page limit of 2. -/
theorem pagination_complete_witness :
    List.Sorted (· < ·) [str "p/a", str "p/b", str "p/c"] ∧ (0:Nat) < 2
    ∧ download_folder_names [str "p/a", str "p/b", str "p/c"] (str "p/") 2
        = [str "p/a", str "p/b", str "p/c"] :=
  ⟨by decide, by decide, by
    have h := (pagination_complete [str "p/a", str "p/b", str "p/c"] (str "p/") 2
      (by decide) (by decide)).1
    rw [h]
    decide⟩

/-- Classification of a remote download source by `handle_cp_command`. -/
inductive SrcKind
  | folder
  | single
  | notFound
deriving DecidableEq

/-- Embedding of the source-classification logic of `handle_cp_command`
(ocutil/main.py, download branch): an empty key (bucket root) or a key ending
in a slash is a folder; otherwise the exact object is probed with
`head_object` (`headOk` is its outcome: `true` success, `false` a 404), and
on 404 a one-object listing with the key as prefix decides between folder
and source-not-found. -/
def classify_source (names : List Str) (headOk : Bool) (object_path : Str) :
    SrcKind :=
  if object_path = [] then SrcKind.folder
  else if strEndsWith object_path (str "/") then SrcKind.folder
  else if headOk then SrcKind.single
  else if list_objects names object_path none 1 ≠ [] then SrcKind.folder
  else SrcKind.notFound

/-- Filesystem and remote effects the `cp` download handler can perform. -/
inductive Act
  | mkdirDest
  | mkdirParent (o : Str)
  | writeLocal (o : Str)
  | remotePut (o : Str)
deriving DecidableEq

/-- The abstract environment a `cp` download invocation runs against: the
state of the local destination, the bucket content, the outcome of the
head probe, the per-object bulk worker outcomes, and the single-file
download outcome. -/
structure CpEnv where
  destExists : Bool
  destIsDir : Bool
  names : List Str
  headOk : Bool
  outcome : Str → WorkerResult
  singleOutcome : Bool

/-- What a `cp` download invocation produces: the process exit code (0 when
the handler runs to completion), the effect trace, the task list built, and
the bulk run summary. -/
structure CpResult where
  exitCode : Nat
  actions : List Act
  tasks : List Str
  summary : RunSummary

/-- Embedding of the download direction of `handle_cp_command`
(ocutil/main.py). The missing destination directory is created before the
dry-run flag is ever consulted; classification follows `classify_source`; a
single-file download reports its Boolean outcome through the exit code,
while the bulk branch hard-codes `operation_successful = True` so its exit
code is 0 no matter how many tasks failed. -/
def handle_cp_download (env : CpEnv) (object_path : Str) (dryRun : Bool)
    (limit : Nat) : CpResult :=
  let acts0 : List Act := if env.destExists then [] else [Act.mkdirDest]
  if env.destExists ∧ env.destIsDir = false then
    { exitCode := 1, actions := [], tasks := [], summary := ⟨0, 0, []⟩ }
  else
    match classify_source env.names env.headOk object_path with
    | SrcKind.notFound =>
      { exitCode := 1, actions := acts0, tasks := [], summary := ⟨0, 0, []⟩ }
    | SrcKind.single =>
      if dryRun then
        { exitCode := 0, actions := acts0, tasks := [object_path],
          summary := ⟨0, 0, []⟩ }
      else
        { exitCode := if env.singleOutcome then 0 else 1,
          actions := acts0 ++ [Act.mkdirParent object_path, Act.writeLocal object_path],
          tasks := [object_path], summary := ⟨0, 0, []⟩ }
    | SrcKind.folder =>
      let names := download_folder_names env.names object_path limit
      if names = [] then
        { exitCode := 0, actions := acts0, tasks := [], summary := ⟨0, 0, []⟩ }
      else if dryRun then
        { exitCode := 0, actions := acts0, tasks := names, summary := ⟨0, 0, []⟩ }
      else
        { exitCode := 0,
          actions := acts0 ++ [Act.mkdirDest]
            ++ names.flatMap (fun o => [Act.mkdirParent o, Act.writeLocal o]),
          tasks := names,
          summary := execute_parallel_download
            (names.map (fun o => (o, env.outcome o))) }

/-- Embedding of `Uploader.upload_folder` (ocutil/utils/uploader.py) at the
task level: `files` is the list of (relative path, size) pairs the directory
walk finds; the task list is built before the dry-run check, and a dry run
returns before any remote call. -/
def upload_folder_model (files : List (Str × Nat)) (object_pfx : Str)
    (dryRun : Bool) : List (Str × Str × Nat) × List Act :=
  let tasks := files.map (fun f => (upload_object_name object_pfx f.1, f.1, f.2))
  if tasks = [] then ([], [])
  else if dryRun then (tasks, [])
  else (tasks, tasks.map (fun t => Act.remotePut t.1))

/-- A one-object listing with the key as prefix is non-empty exactly when
some bucket object carries the key as a prefix. -/
theorem list_objects_ne_nil_iff (names : List Str) (pfx : Str) :
    list_objects names pfx none 1 ≠ [] ↔ ∃ n ∈ names, pfx <+: n := by
  unfold list_objects
  rw [Ne, List.take_eq_nil_iff]
  constructor
  · intro h
    have hne : names.filter (fun n => saLt none n && pfx.isPrefixOf n) ≠ [] := by
      intro hc
      exact h (Or.inr hc)
    obtain ⟨n, hn⟩ := List.exists_mem_of_ne_nil _ hne
    have := List.mem_filter.mp hn
    refine ⟨n, this.1, ?_⟩
    have hb := this.2
    simp only [saLt, Bool.true_and] at hb
    exact List.isPrefixOf_iff_prefix.mp hb
  · intro ⟨n, hn, hp⟩ hc
    rcases hc with hc | hc
    · omega
    · have : n ∈ names.filter (fun n => saLt none n && pfx.isPrefixOf n) := by
        rw [List.mem_filter]
        refine ⟨hn, ?_⟩
        simp only [saLt, Bool.true_and]
        exact List.isPrefixOf_iff_prefix.mpr hp
      rw [hc] at this
      simp at this

/-- C5: a non-empty key not ending in a slash is classified by first probing
the exact object: success means a single-object download; on a 404 a
one-object prefix listing decides, a match meaning a folder download and no
match terminating the invocation with exit code 1. An empty key or a key
ending in a slash is a folder download regardless of the probe. -/
theorem classify_source_spec (env : CpEnv) (object_path : Str) (dryRun : Bool)
    (limit : Nat) :
    (object_path = [] →
      classify_source env.names env.headOk object_path = SrcKind.folder)
    ∧ (strEndsWith object_path (str "/") = true →
        classify_source env.names env.headOk object_path = SrcKind.folder)
    ∧ (object_path ≠ [] → strEndsWith object_path (str "/") = false →
        env.headOk = true →
        classify_source env.names env.headOk object_path = SrcKind.single)
    ∧ (object_path ≠ [] → strEndsWith object_path (str "/") = false →
        env.headOk = false → (∃ n ∈ env.names, object_path <+: n) →
        classify_source env.names env.headOk object_path = SrcKind.folder)
    ∧ (object_path ≠ [] → strEndsWith object_path (str "/") = false →
        env.headOk = false → (¬ ∃ n ∈ env.names, object_path <+: n) →
        classify_source env.names env.headOk object_path = SrcKind.notFound
        ∧ (handle_cp_download env object_path dryRun limit).exitCode = 1) := by
  refine ⟨?_, ?_, ?_, ?_, ?_⟩
  · intro h
    simp [classify_source, h]
  · intro h
    simp [classify_source, h]
  · intro h1 h2 h3
    simp [classify_source, h1, h2, h3]
  · intro h1 h2 h3 h4
    have hne := (list_objects_ne_nil_iff env.names object_path).mpr h4
    simp [classify_source, h1, h2, h3, hne]
  · intro h1 h2 h3 h4
    have hnil : list_objects env.names object_path none 1 = [] := by
      by_contra hc
      exact h4 ((list_objects_ne_nil_iff env.names object_path).mp hc)
    have hcl : classify_source env.names env.headOk object_path
        = SrcKind.notFound := by
      simp [classify_source, h1, h2, h3, hnil]
    refine ⟨hcl, ?_⟩
    unfold handle_cp_download
    by_cases hd : env.destExists ∧ env.destIsDir = false
    · rw [if_pos hd]
    · rw [if_neg hd, hcl]

/-- Witness for `classify_source_spec` at concrete inputs. -/
theorem classify_source_spec_witness :
    (str "k") ≠ ([] : Str) ∧ strEndsWith (str "k") (str "/") = false
    ∧ classify_source [str "k/x"] false (str "k") = SrcKind.folder :=
  ⟨by decide, by decide,
   (classify_source_spec
      ⟨true, true, [str "k/x"], false, fun _ => WorkerResult.ok, true⟩
      (str "k") false 1000).2.2.2.1 (by decide) (by decide) (by decide)
      ⟨str "k/x", by decide, by decide⟩⟩

/-- C1 counterexample: a bulk download whose only task fails still makes the
process exit 0 — `handle_cp_command` sets `operation_successful = True` after
`download_folder` returns, never inspecting the run summary. -/
theorem bulk_failure_exit_zero_cex :
    (handle_cp_download
        ⟨true, true, [str "f/a"], false, fun _ => WorkerResult.fail (str "err"), true⟩
        (str "f/") false 1000).summary.failedList.length = 1
    ∧ (handle_cp_download
        ⟨true, true, [str "f/a"], false, fun _ => WorkerResult.fail (str "err"), true⟩
        (str "f/") false 1000).exitCode = 0 := by
  refine ⟨by decide, by decide⟩

/-- C1 (amended): bulk per-task failures never reach the exit code — after a
folder download the handler exits 0 for every mix of worker outcomes, the
failures surfacing only in the logged run summary; a failed single-object
download exits 1, and a source classified as not found exits 1. -/
theorem bulk_failure_exit_code (env : CpEnv) (object_path : Str) (limit : Nat)
    (hdest : env.destExists = true → env.destIsDir = true) :
    (classify_source env.names env.headOk object_path = SrcKind.folder →
      (handle_cp_download env object_path false limit).exitCode = 0)
    ∧ (classify_source env.names env.headOk object_path = SrcKind.single →
        env.singleOutcome = false →
        (handle_cp_download env object_path false limit).exitCode = 1)
    ∧ (classify_source env.names env.headOk object_path = SrcKind.notFound →
        (handle_cp_download env object_path false limit).exitCode = 1) := by
  have hvalid : ¬ (env.destExists ∧ env.destIsDir = false) := by
    intro ⟨ha, hb⟩
    rw [hdest ha] at hb
    cases hb
  refine ⟨?_, ?_, ?_⟩
  · intro hcl
    unfold handle_cp_download
    rw [if_neg hvalid, hcl]
    by_cases hn : download_folder_names env.names object_path limit = []
    · simp [hn]
    · simp [hn]
  · intro hcl hout
    unfold handle_cp_download
    rw [if_neg hvalid, hcl]
    simp [hout]
  · intro hcl
    unfold handle_cp_download
    rw [if_neg hvalid, hcl]

/-- Witness for `bulk_failure_exit_code`: the bulk case of the
counterexample environment, driven through the amended theorem. -/
theorem bulk_failure_exit_code_witness :
    classify_source [str "f/a"] false (str "f/") = SrcKind.folder
    ∧ (handle_cp_download
        ⟨true, true, [str "f/a"], false, fun _ => WorkerResult.fail (str "err"), true⟩
        (str "f/") false 1000).exitCode = 0 :=
  ⟨by decide,
   (bulk_failure_exit_code
      ⟨true, true, [str "f/a"], false, fun _ => WorkerResult.fail (str "err"), true⟩
      (str "f/") 1000 (fun _ => rfl)).1 (by decide)⟩

/-- C2 counterexample: with the destination directory missing, a dry-run cp
download still creates it — `handle_cp_command` calls `os.makedirs` before
the dry-run flag is ever consulted, so dry-run mode does perform a
filesystem write. -/
theorem dry_run_creates_dir_cex :
    (handle_cp_download
        ⟨false, false, [str "f/a"], false, fun _ => WorkerResult.ok, true⟩
        (str "f/") true 1000).actions = [Act.mkdirDest] := by
  decide

/-- C2 (amended): a dry run builds exactly the task list of a real run over
the same inputs (same count and names, for both the download handler and the
folder upload), performs no remote mutating call, and performs no filesystem
write except creating the destination directory when it is missing — that
one write happens before the dry-run flag is consulted. -/
theorem dry_run_tasks_and_actions (env : CpEnv) (object_path : Str) (limit : Nat)
    (files : List (Str × Nat)) (object_pfx : Str) :
    (handle_cp_download env object_path true limit).tasks
        = (handle_cp_download env object_path false limit).tasks
    ∧ (handle_cp_download env object_path true limit).actions
        = (if env.destExists then [] else [Act.mkdirDest])
    ∧ (upload_folder_model files object_pfx true).1
        = (upload_folder_model files object_pfx false).1
    ∧ (upload_folder_model files object_pfx true).2 = [] := by
  refine ⟨?_, ?_, ?_, ?_⟩
  · unfold handle_cp_download
    by_cases h1 : env.destExists ∧ env.destIsDir = false
    · rw [if_pos h1, if_pos h1]
    · rw [if_neg h1, if_neg h1]
      cases hcl : classify_source env.names env.headOk object_path
      · by_cases hn : download_folder_names env.names object_path limit = []
        · simp [hn]
        · simp [hn]
      · simp
      · simp
  · unfold handle_cp_download
    by_cases h1 : env.destExists ∧ env.destIsDir = false
    · rw [if_pos h1]
      simp [h1.1]
    · rw [if_neg h1]
      cases hcl : classify_source env.names env.headOk object_path
      · by_cases hn : download_folder_names env.names object_path limit = []
        · simp [hn]
        · simp [hn]
      · simp
      · simp
  · unfold upload_folder_model
    by_cases h : files.map (fun f => (upload_object_name object_pfx f.1, f.1, f.2)) = []
    · rw [if_pos h, if_pos h]
    · rw [if_neg h, if_neg h]
      simp
  · unfold upload_folder_model
    by_cases h : files.map (fun f => (upload_object_name object_pfx f.1, f.1, f.2)) = []
    · rw [if_pos h]
    · rw [if_neg h]
      simp

end Ocutil
